import Mathlib

/-
Verification of the AI_first developer-tooling repository.

The development shallowly embeds the two Python components of the
repository and proves the frozen specification claims about them:

* `reintegration_lib.py` : manifest building and diffing, locating the
  AI_first directory, and the ordering of effects in `run_reintegration`.
* `ai_first_control_server.py` : the job-queue control server, issue id
  allocation, enumerated-field normalization, the rolling error log,
  origin and token authorization, and the quick-issues POST handler.

Modelling conventions:
* Python dictionaries used as manifests become association lists
  `List (String × String)`; their key sets become `Finset String`.
* Python strings are Lean `String`; where structural reasoning about
  characters is needed (slicing, stripping, case folding, digit tests)
  the operations are defined on the underlying character list, which is
  the standard code-point model of Python text.
* The threaded server becomes a labelled transition system `Step` on
  `ServerState`; the statements quantify over all interleavings via the
  reflexive-transitive closure.  The job ids drawn from `uuid4` are
  modelled by a fresh counter `nextId`, which encodes the uniqueness
  property the server relies on.
* Subprocess exit codes are integers supplied by the environment; the
  command loop of `_run_job` is modelled as a fold over the exit codes
  the commands would return.
-/

namespace AIFirst

/-! ## Definitions: manifest diff (`reintegration_lib.py`) -/

/-- A manifest maps relative file paths to content hashes, as built by
the Python function `_build_manifest`. -/
def Manifest : Type := List (String × String)

/-- Key set of a manifest, the model of `set(d.keys())`. -/
def manifest_keys (m : Manifest) : Finset String :=
  (m.map Prod.fst).toFinset

/-- Hash lookup in a manifest, the model of `d[k]`. -/
def manifest_get (m : Manifest) (k : String) : Option String :=
  List.lookup k m

/-- Model of `_diff_manifests` from `reintegration_lib.py`: set
difference for `added` and `removed`, and a hash comparison on the
intersection for `changed` and `same`, each returned as a sorted list. -/
def diff_manifests (current incoming : Manifest) :
    List String × List String × List String × List String :=
  let current_keys := manifest_keys current
  let incoming_keys := manifest_keys incoming
  let added := (incoming_keys \ current_keys).sort (fun a b => a ≤ b)
  let removed := (current_keys \ incoming_keys).sort (fun a b => a ≤ b)
  let common := current_keys ∩ incoming_keys
  let changed :=
    (common.filter (fun k => manifest_get current k ≠ manifest_get incoming k)).sort
      (fun a b => a ≤ b)
  let same :=
    (common.filter (fun k => manifest_get current k = manifest_get incoming k)).sort
      (fun a b => a ≤ b)
  (added, removed, changed, same)

/-! ## Definitions: command loop of `_run_job` -/

/-- Model of the command loop in `ControlServer._run_job`.  The input is
the list of exit codes that the commands of the action would return, in
list order.  The result is the final value of the `returncode` variable
together with the number of commands actually launched; the loop breaks
at the first non-zero exit code. -/
def run_action (exits : List Int) : Int × Nat :=
  match exits with
  | [] => (0, 0)
  | rc :: rest =>
    if rc ≠ 0 then (rc, 1)
    else
      let r := run_action rest
      (r.1, r.2 + 1)

/-- Terminal status assignment of `_run_job`:
`job.status = "done" if returncode == 0 else "error"`. -/
def job_final_status (returncode : Int) : String :=
  if returncode = 0 then "done" else "error"

/-! ## Definitions: Python string helpers

The control server normalizes request fields with `str.strip` and
`str.lower`.  These are modelled on the character list underlying the
string (ASCII case folding and whitespace, which is what every value
the server compares against uses). -/

/-- Model of Python `str.strip()`. -/
def py_strip (s : String) : String :=
  String.mk (((s.data.dropWhile Char.isWhitespace).reverse.dropWhile
    Char.isWhitespace).reverse)

/-- Model of Python `str.lower()`. -/
def py_lower (s : String) : String :=
  String.mk (s.data.map Char.toLower)

/-! ## Definitions: enumerated field normalization -/

/-- Model of `_normalize_status`: trim and lowercase the input, keep it
when it is one of the three known statuses, default to `open`. -/
def normalize_status (value : Option String) : String :=
  let v := py_lower (py_strip (value.getD ""))
  if v = "open" ∨ v = "in_progress" ∨ v = "closed" then v else "open"

/-- Model of `_normalize_priority`: trim and lowercase the input, keep
it when it is one of the three known priorities, default to `medium`. -/
def normalize_priority (value : Option String) : String :=
  let v := py_lower (py_strip (value.getD ""))
  if v = "high" ∨ v = "medium" ∨ v = "low" then v else "medium"

/-! ## Definitions: origin and token authorization -/

/-- Model of `_is_local_origin`.  A missing or empty `Origin` header is
accepted; otherwise the header must start with one of the four local
URL forms. -/
def is_local_origin (origin : Option String) : Bool :=
  match origin with
  | none => true
  | some o =>
    if o = "" then true
    else
      o.startsWith "http://localhost" || o.startsWith "http://127.0.0.1" ||
        o.startsWith "http://[::1]" || o.startsWith "http://[::]"

/-- Model of `Handler._auth_ok`, the common gate of `do_GET` and
`do_POST`: reject non-local origins; with no configured token accept
everything else; with a configured token require the matching
`X-AI-Token` header. -/
def auth_ok (cfg_token : Option String) (origin : Option String)
    (token_header : Option String) : Bool :=
  if !(is_local_origin origin) then false
  else
    match cfg_token with
    | none => true
    | some t => token_header == some t

/-! ## Definitions: rolling error log -/

/-- One record of the rolling error log, mirroring the dictionary
appended in `_run_job` when a job fails. -/
structure ErrorEntry where
  id : String
  action : String
  status : String
  returncode : Option Int
  started_at : Option String
  ended_at : Option String
  log_url : String

/-- Model of the error-log mutation in `_run_job`: append the entry and
trim the log to its most recent 200 entries. -/
def append_error (log : List ErrorEntry) (e : ErrorEntry) : List ErrorEntry :=
  let log2 := log ++ [e]
  if log2.length > 200 then log2.drop (log2.length - 200) else log2

/-! ## Definitions: control-server state machine

The transition system models `ControlServer` together with the threads
acting on it.  Each constructor of `Step` is one atomic section of the
Python code: either a lock-protected bookkeeping block, or a write
performed by the unique thread that owns the written data.  Spawning a
thread happens after the submitter has released the lock, so it is a
separate transition (`pending` counts threads that have been decided on
but not started). -/

/-- Status values of a `Job`, the four strings stored in
`job.status`. -/
inductive JobStatus where
  | queued
  | running
  | done
  | error
deriving DecidableEq, Repr

/-- Program position of a live worker thread inside `_queue_worker` and
`_run_job`: at the top of the drain loop, holding a popped job id before
marking it running, or executing a job it marked running. -/
inductive WorkerPhase where
  | loop
  | hold (j : Nat)
  | exec (j : Nat)
deriving DecidableEq, Repr

/-- Update of `self.jobs[job_id].status`: the entry with the given key
gets the new status, every other entry is untouched. -/
def setStatus (jobs : List (Nat × JobStatus)) (j : Nat) (st : JobStatus) :
    List (Nat × JobStatus) :=
  jobs.map (fun p => if p.1 = j then (p.1, st) else p)

/-- Dictionary access `self.jobs.get(job_id)` on the job table. -/
def lookupJob (jobs : List (Nat × JobStatus)) (j : Nat) : Option JobStatus :=
  match jobs with
  | [] => none
  | p :: rest => if p.1 = j then some p.2 else lookupJob rest j

/-- The mutable state of `ControlServer` plus the scheduling state of
its threads.  Job ids are modelled by the counter `nextId`. -/
structure ServerState where
  jobs : List (Nat × JobStatus)
  job_order : List Nat
  queue : List Nat
  queue_running : Bool
  pending : Nat
  workers : List WorkerPhase
  error_log : List ErrorEntry
  nextId : Nat

/-- Initial server state built by `ControlServer.__init__`. -/
def initState : ServerState :=
  { jobs := [], job_order := [], queue := [], queue_running := false,
    pending := 0, workers := [], error_log := [], nextId := 0 }

/-- Job ids currently owned by some worker thread (popped from the
queue and not yet finished). -/
def workerIds (ws : List WorkerPhase) : List Nat :=
  ws.filterMap (fun w =>
    match w with
    | WorkerPhase.loop => none
    | WorkerPhase.hold j => some j
    | WorkerPhase.exec j => some j)

/-- One atomic transition of the control server.

* `submit` is the locked section of `start_job`: record the job as
  `queued`, append it to `job_order` and `queue`, and when the queue was
  idle promise exactly one new worker thread.
* `spawnWorker` is the `threading.Thread(...).start()` call performed by
  the submitter after releasing the lock.
* `workerIdle` is the locked section of `_queue_worker` finding the
  queue empty: clear `queue_running` and let the thread return.
* `workerPop` is the locked section popping the head job;
  `workerPopMissing` is the `job is None` continue branch.
* `workerStart` is `_run_job` setting `job.status = "running"`.
* `workerFinish` is `_run_job` recording the final status and, for a
  failure, appending to the bounded error log; `rc` is the final value
  of `returncode` and `e` the entry built from the job.
* `clearErrors` is the `POST /api/errors/clear` handler. -/
inductive Step : ServerState → ServerState → Prop where
  | submit (s : ServerState) :
      Step s { s with
        jobs := s.jobs ++ [(s.nextId, JobStatus.queued)],
        job_order := s.job_order ++ [s.nextId],
        queue := s.queue ++ [s.nextId],
        queue_running := true,
        pending := if s.queue_running then s.pending else s.pending + 1,
        nextId := s.nextId + 1 }
  | spawnWorker (s : ServerState) (h : 0 < s.pending) :
      Step s { s with pending := s.pending - 1,
                      workers := s.workers ++ [WorkerPhase.loop] }
  | workerIdle (s : ServerState) (w1 w2 : List WorkerPhase)
      (hw : s.workers = w1 ++ WorkerPhase.loop :: w2) (hq : s.queue = []) :
      Step s { s with queue_running := false, workers := w1 ++ w2 }
  | workerPop (s : ServerState) (w1 w2 : List WorkerPhase) (j : Nat)
      (q2 : List Nat) (hw : s.workers = w1 ++ WorkerPhase.loop :: w2)
      (hq : s.queue = j :: q2) (hj : (lookupJob s.jobs j).isSome) :
      Step s { s with queue := q2,
                      workers := w1 ++ WorkerPhase.hold j :: w2 }
  | workerPopMissing (s : ServerState) (w1 w2 : List WorkerPhase) (j : Nat)
      (q2 : List Nat) (hw : s.workers = w1 ++ WorkerPhase.loop :: w2)
      (hq : s.queue = j :: q2) (hj : lookupJob s.jobs j = none) :
      Step s { s with queue := q2 }
  | workerStart (s : ServerState) (w1 w2 : List WorkerPhase) (j : Nat)
      (hw : s.workers = w1 ++ WorkerPhase.hold j :: w2) :
      Step s { s with workers := w1 ++ WorkerPhase.exec j :: w2,
                      jobs := setStatus s.jobs j JobStatus.running }
  | workerFinish (s : ServerState) (w1 w2 : List WorkerPhase) (j : Nat)
      (rc : Int) (e : ErrorEntry)
      (hw : s.workers = w1 ++ WorkerPhase.exec j :: w2) :
      Step s { s with
        workers := w1 ++ WorkerPhase.loop :: w2,
        jobs := setStatus s.jobs j
          (if rc = 0 then JobStatus.done else JobStatus.error),
        error_log := if rc = 0 then s.error_log
          else append_error s.error_log e }
  | clearErrors (s : ServerState) :
      Step s { s with error_log := [] }

/-- States reachable from the freshly constructed server. -/
def Reachable (s : ServerState) : Prop :=
  Relation.ReflTransGen Step initState s

/-- Rank of a job status along the lifecycle
`queued -> running -> done | error`. -/
def statusRank : JobStatus → Nat
  | JobStatus.queued => 0
  | JobStatus.running => 1
  | JobStatus.done => 2
  | JobStatus.error => 2

/-- The inductive invariant of the control server:
1. the idle-to-active protocol accounts for exactly one worker thread
   (promised or live) while `queue_running` is set, and none otherwise;
2. job keys are pairwise distinct;
3. job keys are below the id counter;
4. every job in status `running` is owned by a live worker executing it;
5. every queued-up id denotes a job in status `queued`;
6. a held job is still in status `queued`;
7. an executing worker owns a job in status `running`;
8. the queue has no duplicates;
9. ids owned by workers are not in the queue;
10. the error log is bounded by 200 entries. -/
def Inv (s : ServerState) : Prop :=
  (s.pending + s.workers.length = (if s.queue_running then 1 else 0)) ∧
  (s.jobs.map Prod.fst).Nodup ∧
  (∀ p ∈ s.jobs, p.1 < s.nextId) ∧
  (∀ p ∈ s.jobs, p.2 = JobStatus.running →
    WorkerPhase.exec p.1 ∈ s.workers) ∧
  (∀ j ∈ s.queue, lookupJob s.jobs j = some JobStatus.queued) ∧
  (∀ j : Nat, WorkerPhase.hold j ∈ s.workers →
    lookupJob s.jobs j = some JobStatus.queued) ∧
  (∀ j : Nat, WorkerPhase.exec j ∈ s.workers →
    lookupJob s.jobs j = some JobStatus.running) ∧
  s.queue.Nodup ∧
  (∀ j ∈ workerIds s.workers, j ∉ s.queue) ∧
  s.error_log.length ≤ 200

/-! ## Definitions: issue id allocation (`_next_issue_id`)

The id handling slices, splits and formats strings, so these helpers
work on the character list of the string.  `nat_digits` is the decimal
numeral used by Python `%d`; `pad3` is the `%03d` format (zero pad to a
minimum width of three). -/

/-- Decimal digit character for a value below ten. -/
def digit_char (d : Nat) : Char := Char.ofNat (48 + d)

/-- Fuel-indexed most-significant-first decimal digits of a number. -/
def digits_go : Nat → Nat → List Char
  | 0, _ => []
  | fuel + 1, n =>
    if n = 0 then [] else digits_go fuel (n / 10) ++ [digit_char (n % 10)]

/-- Decimal numeral of a positive number (empty for zero), the model of
Python `"%d" % n` up to the zero case, which `pad3` makes agree. -/
def nat_digits (n : Nat) : List Char := digits_go n n

/-- Model of Python `"%03d" % n`: the decimal numeral left-padded with
zeros to a minimum width of three characters. -/
def pad3 (n : Nat) : String :=
  String.mk (List.replicate (3 - (nat_digits n).length) '0' ++ nat_digits n)

/-- Numeric value of a digit string, the model of Python `int(tail)`
for a string of decimal digits. -/
def char_digits_to_nat (cs : List Char) : Nat :=
  cs.foldl (fun acc c => acc * 10 + (c.toNat - 48)) 0

/-- Characters after the last dash, the model of
`issue_id.rsplit("-", 1)[-1]` (the whole string when no dash occurs). -/
def tail_after_dash (cs : List Char) : List Char :=
  (cs.reverse.takeWhile (fun c => c != '-')).reverse

/-- Month-scoped id stem, the model of
`f"QI-{now_date[:4]}-{now_date[5:7]}-"`. -/
def month_pfx (now_date : String) : String :=
  String.mk (("QI-".data ++ now_date.data.take 4 ++ '-' ::
    (now_date.data.drop 5).take 2) ++ ['-'])

/-- One stored quick issue.  The fields are the ones the server reads
and writes; `id` is optional because loaded documents may lack it. -/
structure Issue where
  id : Option String
  title : String
  status : String
  priority : String
  owner : String
  tags : List String
  notes : String
  created_at : String
  updated_at : String
deriving DecidableEq, Repr

/-- Sequence number the server extracts from one stored issue for a
given month stem: the id must start with the stem and the digits after
its last dash are the number (the loop body of `_next_issue_id`). -/
def tail_num (pfx issue_id : String) : Option Nat :=
  if pfx.data.isPrefixOf issue_id.data then
    let tail := tail_after_dash issue_id.data
    if tail ≠ [] ∧ tail.all Char.isDigit then some (char_digits_to_nat tail)
    else none
  else none

/-- All sequence numbers found in the issue list for the month of
`now_date`, the `numbers` list of `_next_issue_id`. -/
def seq_numbers (issues : List Issue) (now_date : String) : List Nat :=
  issues.filterMap (fun issue => tail_num (month_pfx now_date) (issue.id.getD ""))

/-- Model of `_next_issue_id`: one more than the maximum sequence
number sharing the month stem (one when there is none), formatted with
`%03d` behind the stem. -/
def next_issue_id (issues : List Issue) (now_date : String) : String :=
  let pfx := month_pfx now_date
  let numbers := seq_numbers issues now_date
  let next_num := numbers.foldr max 0 + 1
  String.mk (pfx.data ++ (pad3 next_num).data)

/-! ## Definitions: quick-issues POST handler -/

/-- Parsed JSON body of a `POST /api/quick-issues` request; `none`
means the key is absent.  `tags` may be a comma-separated string or a
list. -/
structure QuickPayload where
  action : Option String
  id : Option String
  title : Option String
  status : Option String
  priority : Option String
  owner : Option String
  tags : Option (String ⊕ List String)
  notes : Option String
deriving DecidableEq, Repr

/-- The stored quick-issues document. -/
structure QuickDoc where
  updated_at : String
  issues : List Issue
deriving DecidableEq, Repr

/-- On-disk state of the quick-issues JSON file: a parsable document,
no file, or a file whose content fails to parse. -/
inductive StoredJson where
  | present (doc : QuickDoc)
  | missing
  | unreadable
deriving DecidableEq, Repr

/-- Model of `_default_quick_issues`. -/
def default_quick_issues (now_date : String) : QuickDoc :=
  { updated_at := now_date, issues := [] }

/-- Model of `_read_json`: return the parsed document, or write the
default document and return it when the file is missing or does not
parse.  The result carries the returned document, the writes performed,
and the file state afterwards. -/
def read_json_quick (st : StoredJson) (dflt : QuickDoc) :
    QuickDoc × List QuickDoc × StoredJson :=
  match st with
  | StoredJson.present d => (d, [], StoredJson.present d)
  | StoredJson.missing => (dflt, [dflt], StoredJson.present dflt)
  | StoredJson.unreadable => (dflt, [dflt], StoredJson.present dflt)

/-- Python truthiness of an optional string field. -/
def py_truthy_str (v : Option String) : Bool :=
  match v with
  | none => false
  | some s => !(s == "")

/-- Action resolution of the quick-issues handler:
`action = (payload.get("action") or "").strip().lower()`, defaulting to
`update` when an id is supplied and `create` otherwise. -/
def resolve_action (payload : QuickPayload) : String :=
  let a := py_lower (py_strip (payload.action.getD ""))
  if a == "" then (if py_truthy_str payload.id then "update" else "create")
  else a

/-- Splitting a character list on commas, the model of
`s.split(",")`. -/
def split_commas : List Char → List Char → List (List Char)
  | [], acc => [acc.reverse]
  | c :: cs, acc =>
    if c = ',' then acc.reverse :: split_commas cs []
    else split_commas cs (c :: acc)

/-- Tags field handling of the create branch: absent means empty, a
string is split on commas with blank entries dropped, a list is kept. -/
def parse_tags (t : Option (String ⊕ List String)) : List String :=
  match t with
  | none => []
  | some (Sum.inr l) => l
  | some (Sum.inl s) =>
    ((split_commas s.data []).map (fun cs => py_strip (String.mk cs))).filter
      (fun s2 => !(s2 == ""))

/-- The issue built by the create branch of the handler. -/
def create_issue (payload : QuickPayload) (issues : List Issue)
    (now_date now_stamp : String) : Issue :=
  { id := some (next_issue_id issues now_date),
    title := py_strip (payload.title.getD ""),
    status := normalize_status payload.status,
    priority := normalize_priority payload.priority,
    owner :=
      (let o := py_strip (payload.owner.getD "unassigned");
        if o == "" then "unassigned" else o),
    tags := parse_tags payload.tags,
    notes := py_strip (payload.notes.getD ""),
    created_at := now_stamp,
    updated_at := now_stamp }

/-- Replace the first issue matched by the update branch (the object
mutated through `next(...)`). -/
def replace_first (issues : List Issue) (p : Issue → Bool) (upd : Issue) :
    List Issue :=
  match issues with
  | [] => []
  | i :: rest =>
    if p i then upd :: rest else i :: replace_first rest p upd

/-- Field merge of the update and close branches applied to the found
issue, in source order: close forces `closed`, then each present payload
key overwrites its field, and `updated_at` is stamped. -/
def apply_update (act : String) (payload : QuickPayload) (now_stamp : String)
    (target : Issue) : Issue :=
  let t0 := if act == "close" then { target with status := "closed" } else target
  let t1 := if (payload.title).isSome
    then { t0 with title := py_strip (payload.title.getD "") } else t0
  let t2 := if (payload.status).isSome
    then { t1 with status := normalize_status payload.status } else t1
  let t3 := if (payload.priority).isSome
    then { t2 with priority := normalize_priority payload.priority } else t2
  let t4 := if (payload.owner).isSome
    then { t3 with owner :=
      (let o := py_strip (payload.owner.getD "unassigned");
        if o == "" then "unassigned" else o) } else t3
  let t5 := if (payload.tags).isSome
    then { t4 with tags := parse_tags payload.tags } else t4
  let t6 := if (payload.notes).isSome
    then { t5 with notes := py_strip (payload.notes.getD "") } else t5
  { t6 with updated_at := now_stamp }

/-- Outcome of a `POST /api/quick-issues` request: HTTP status code,
file state afterwards, and the document writes performed in order. -/
structure PostResult where
  code : Nat
  store : StoredJson
  writes : List QuickDoc
deriving DecidableEq, Repr

/-- Model of the `/api/quick-issues` branch of `Handler.do_POST`
(after authorization and JSON parsing): read or default-initialize the
stored document, resolve the action, and run the create, update or
close branch; invalid input returns 400 or 404 before the final
write. -/
def quick_issues_post (st : StoredJson) (payload : QuickPayload)
    (now_date now_stamp : String) : PostResult :=
  let rd := read_json_quick st (default_quick_issues now_date)
  let data := rd.1
  let issues := data.issues
  let act := resolve_action payload
  if act == "create" then
    let title := py_strip (payload.title.getD "")
    if title == "" then { code := 400, store := rd.2.2, writes := rd.2.1 }
    else
      let issue := create_issue payload issues now_date now_stamp
      let data2 : QuickDoc :=
        { updated_at := now_date, issues := issues ++ [issue] }
      { code := 200, store := StoredJson.present data2,
        writes := rd.2.1 ++ [data2] }
  else if act == "update" || act == "close" then
    let issue_id := py_strip (payload.id.getD "")
    if issue_id == "" then { code := 400, store := rd.2.2, writes := rd.2.1 }
    else
      match issues.find? (fun i => (i.id.getD "None") == issue_id) with
      | none => { code := 404, store := rd.2.2, writes := rd.2.1 }
      | some target =>
        let updated := apply_update act payload now_stamp target
        let issues2 :=
          replace_first issues (fun i => (i.id.getD "None") == issue_id) updated
        let data2 : QuickDoc := { updated_at := now_date, issues := issues2 }
        { code := 200, store := StoredJson.present data2,
          writes := rd.2.1 ++ [data2] }
  else { code := 400, store := rd.2.2, writes := rd.2.1 }

/-! ## Definitions: reintegration run (`run_reintegration`) -/

/-- Abstract view of the world `run_reintegration` touches: which paths
are directories, the tracked-file answer of `_git_tracked_files`, and
the manifest `_build_manifest` computes for a tree.  Paths are lists of
components. -/
structure FileSys where
  is_dir : List String → Bool
  git_tracked : Option (List (List String))
  tree_manifest : List String → Manifest

/-- Filesystem effects of `run_reintegration`, in program order. -/
inductive FsEffect where
  | mkdirTree (p : List String)
  | copyTree (src dst : List String) (mode : String)
  | writeReport (p : List String)
  | writeMarkdown (p : List String)

/-- The summary dictionary of `run_reintegration` (the fields the
claims mention). -/
structure ReintegrationSummary where
  source_root : List String
  source_ai_first : List String
  scratch_copy : List String
  copy_mode : String
  warnings : List String
  added : List String
  removed : List String
  changed : List String
  count_same : Nat

/-- Model of `_find_ai_first_dir`: the source path itself when it is a
directory named `AI_first`, else its immediate child `AI_first` when
that is a directory, else a not-found failure. -/
def find_ai_first_dir (fs : FileSys) (source_path : List String) :
    Except String (List String × List String) :=
  if fs.is_dir source_path && (source_path.getLast? == some "AI_first") then
    Except.ok (source_path.dropLast, source_path)
  else if fs.is_dir (source_path ++ ["AI_first"]) then
    Except.ok (source_path, source_path ++ ["AI_first"])
  else Except.error "No AI_first directory found in source path"

/-- Model of `run_reintegration`: locate the `AI_first` directory
(failing fast with no effect when it is absent), copy it into the
timestamped scratch directory, build and diff the manifests, downgrade
an untracked source repo to a warning, and write the optional
reports. -/
def run_reintegration (fs : FileSys) (source_path : List String)
    (current_ai_first scratch_root : List String)
    (report_path markdown_path : Option (List String)) (slug : String) :
    Except String ReintegrationSummary × List FsEffect :=
  match find_ai_first_dir fs source_path with
  | Except.error e => (Except.error e, [])
  | Except.ok (source_root, source_ai_first) =>
    let scratch_copy := scratch_root ++ ["ai_first_" ++ slug]
    let tracked := fs.git_tracked
    let copy_mode := if tracked.isSome then "tracked" else "full"
    let incoming_manifest := fs.tree_manifest scratch_copy
    let current_manifest := fs.tree_manifest current_ai_first
    let d := diff_manifests current_manifest incoming_manifest
    let warnings :=
      if tracked.isSome then []
      else ["Source repo is not a git repository; .gitignore rules not applied."]
    let summary : ReintegrationSummary :=
      { source_root := source_root, source_ai_first := source_ai_first,
        scratch_copy := scratch_copy, copy_mode := copy_mode,
        warnings := warnings, added := d.1, removed := d.2.1,
        changed := d.2.2.1, count_same := d.2.2.2.length }
    let effects :=
      [FsEffect.mkdirTree scratch_root,
        FsEffect.copyTree source_ai_first scratch_copy copy_mode] ++
      (match report_path with
        | some p => [FsEffect.writeReport p]
        | none => []) ++
      (match markdown_path with
        | some p => [FsEffect.writeMarkdown p]
        | none => [])
    (Except.ok summary, effects)

/-! ## Theorems: manifest diff partition (C1) -/

lemma diff_manifests_added (current incoming : Manifest) :
    (diff_manifests current incoming).1.toFinset =
      manifest_keys incoming \ manifest_keys current := by
  simp [diff_manifests]

lemma diff_manifests_removed (current incoming : Manifest) :
    (diff_manifests current incoming).2.1.toFinset =
      manifest_keys current \ manifest_keys incoming := by
  simp [diff_manifests]

lemma diff_manifests_changed (current incoming : Manifest) :
    (diff_manifests current incoming).2.2.1.toFinset =
      (manifest_keys current ∩ manifest_keys incoming).filter
        (fun k => manifest_get current k ≠ manifest_get incoming k) := by
  simp [diff_manifests]

lemma diff_manifests_same (current incoming : Manifest) :
    (diff_manifests current incoming).2.2.2.toFinset =
      (manifest_keys current ∩ manifest_keys incoming).filter
        (fun k => manifest_get current k = manifest_get incoming k) := by
  simp [diff_manifests]

/-- C1: `_diff_manifests` produces four lists whose underlying sets are
exactly the four claimed partitions (incoming minus current, current
minus incoming, common keys with differing hashes, common keys with
equal hashes), are pairwise disjoint, and together cover the union of
the two key sets. -/
theorem diff_manifests_partition (current incoming : Manifest) :
    ((diff_manifests current incoming).1.toFinset =
      manifest_keys incoming \ manifest_keys current) ∧
    ((diff_manifests current incoming).2.1.toFinset =
      manifest_keys current \ manifest_keys incoming) ∧
    ((diff_manifests current incoming).2.2.1.toFinset =
      (manifest_keys current ∩ manifest_keys incoming).filter
        (fun k => manifest_get current k ≠ manifest_get incoming k)) ∧
    ((diff_manifests current incoming).2.2.2.toFinset =
      (manifest_keys current ∩ manifest_keys incoming).filter
        (fun k => manifest_get current k = manifest_get incoming k)) ∧
    ((diff_manifests current incoming).1.toFinset ∪
      (diff_manifests current incoming).2.1.toFinset ∪
      (diff_manifests current incoming).2.2.1.toFinset ∪
      (diff_manifests current incoming).2.2.2.toFinset =
      manifest_keys current ∪ manifest_keys incoming) ∧
    Disjoint (diff_manifests current incoming).1.toFinset
      (diff_manifests current incoming).2.1.toFinset ∧
    Disjoint (diff_manifests current incoming).1.toFinset
      (diff_manifests current incoming).2.2.1.toFinset ∧
    Disjoint (diff_manifests current incoming).1.toFinset
      (diff_manifests current incoming).2.2.2.toFinset ∧
    Disjoint (diff_manifests current incoming).2.1.toFinset
      (diff_manifests current incoming).2.2.1.toFinset ∧
    Disjoint (diff_manifests current incoming).2.1.toFinset
      (diff_manifests current incoming).2.2.2.toFinset ∧
    Disjoint (diff_manifests current incoming).2.2.1.toFinset
      (diff_manifests current incoming).2.2.2.toFinset := by
  have hA := diff_manifests_added current incoming
  have hR := diff_manifests_removed current incoming
  have hC := diff_manifests_changed current incoming
  have hS := diff_manifests_same current incoming
  refine ⟨hA, hR, hC, hS, ?_, ?_, ?_, ?_, ?_, ?_, ?_⟩
  · rw [hA, hR, hC, hS]
    ext k
    simp only [Finset.mem_union, Finset.mem_sdiff, Finset.mem_filter,
      Finset.mem_inter]
    tauto
  · rw [hA, hR, Finset.disjoint_left]
    intro a ha hb
    simp only [Finset.mem_sdiff] at ha hb
    tauto
  · rw [hA, hC, Finset.disjoint_left]
    intro a ha hb
    simp only [Finset.mem_sdiff, Finset.mem_filter, Finset.mem_inter] at ha hb
    tauto
  · rw [hA, hS, Finset.disjoint_left]
    intro a ha hb
    simp only [Finset.mem_sdiff, Finset.mem_filter, Finset.mem_inter] at ha hb
    tauto
  · rw [hR, hC, Finset.disjoint_left]
    intro a ha hb
    simp only [Finset.mem_sdiff, Finset.mem_filter, Finset.mem_inter] at ha hb
    tauto
  · rw [hR, hS, Finset.disjoint_left]
    intro a ha hb
    simp only [Finset.mem_sdiff, Finset.mem_filter, Finset.mem_inter] at ha hb
    tauto
  · rw [hC, hS, Finset.disjoint_left]
    intro a ha hb
    simp only [Finset.mem_filter, Finset.mem_inter] at ha hb
    tauto

/-! ## Theorems: command loop (C2) -/

/-- C2: the worker executes the commands of an action in list order;
when the commands before position `i` all exit zero and the command at
`i` exits non-zero, exactly the first `i + 1` commands are launched, the
final returncode is that non-zero exit code and the terminal status is
`error`; when every command exits zero, all commands run and the
terminal status is `done`. -/
theorem run_action_spec (exits pre post : List Int) (rc : Int) :
    (exits = pre ++ rc :: post → (∀ x ∈ pre, x = 0) → rc ≠ 0 →
      run_action exits = (rc, pre.length + 1) ∧
        job_final_status (run_action exits).1 = "error") ∧
    ((∀ x ∈ exits, x = 0) →
      run_action exits = (0, exits.length) ∧
        job_final_status (run_action exits).1 = "done") := by
  constructor
  · intro hsplit hpre hrc
    subst hsplit
    have hgen : ∀ pre2 : List Int, (∀ x ∈ pre2, x = 0) →
        run_action (pre2 ++ rc :: post) = (rc, pre2.length + 1) := by
      intro pre2
      induction pre2 with
      | nil =>
        intro _
        simp [run_action, hrc]
      | cons x xs ih =>
        intro hpre2
        have hx : x = 0 := hpre2 x (by simp)
        have hxs : ∀ y ∈ xs, y = 0 := fun y hy => hpre2 y (by simp [hy])
        simp only [List.cons_append, run_action, hx]
        simp [ih hxs]
    have hrun := hgen pre hpre
    refine ⟨hrun, ?_⟩
    rw [hrun]
    simp [job_final_status, hrc]
  · intro hall
    have hrun : run_action exits = (0, exits.length) := by
      induction exits with
      | nil => simp [run_action]
      | cons x xs ih =>
        have hx : x = 0 := hall x (by simp)
        have hxs : ∀ y ∈ xs, y = 0 := fun y hy => hall y (by simp [hy])
        simp only [run_action, hx]
        rw [ih hxs]
        simp
    refine ⟨hrun, ?_⟩
    rw [hrun]
    simp [job_final_status]

/-- C2 witness: on exit codes `[0, 3, 7]` the loop stops after the
second command with returncode `3` and status `error`; on `[0, 0]` the
job finishes with status `done`. -/
theorem run_action_spec_witness :
    (run_action [0, 3, 7] = (3, 2) ∧
      job_final_status (run_action [0, 3, 7]).1 = "error") ∧
    (run_action [0, 0] = (0, 2) ∧
      job_final_status (run_action [0, 0]).1 = "done") := by
  constructor
  · exact (run_action_spec [0, 3, 7] [0] [7] 3).1 (by decide) (by decide)
      (by decide)
  · exact (run_action_spec [0, 0] [] [] 1).2 (by decide)

/-! ## Theorems: enumerated field normalization (C6) -/

lemma normalize_status_eq (u : Option String) :
    normalize_status u =
      (if py_lower (py_strip (u.getD "")) = "open" ∨
          py_lower (py_strip (u.getD "")) = "in_progress" ∨
          py_lower (py_strip (u.getD "")) = "closed"
        then py_lower (py_strip (u.getD "")) else "open") := rfl

lemma normalize_priority_eq (u : Option String) :
    normalize_priority u =
      (if py_lower (py_strip (u.getD "")) = "high" ∨
          py_lower (py_strip (u.getD "")) = "medium" ∨
          py_lower (py_strip (u.getD "")) = "low"
        then py_lower (py_strip (u.getD "")) else "medium") := rfl

/-- C6: for every input (including a missing one) `_normalize_status`
returns one of `open`, `in_progress`, `closed` and `_normalize_priority`
one of `high`, `medium`, `low`; a valid trimmed lowercased input is kept
verbatim, anything else falls back to the default (`open` respectively
`medium`). -/
theorem normalize_enum_spec (v w : Option String) :
    (normalize_status v = "open" ∨ normalize_status v = "in_progress" ∨
      normalize_status v = "closed") ∧
    (normalize_priority w = "high" ∨ normalize_priority w = "medium" ∨
      normalize_priority w = "low") ∧
    ((py_lower (py_strip (v.getD "")) = "open" ∨
        py_lower (py_strip (v.getD "")) = "in_progress" ∨
        py_lower (py_strip (v.getD "")) = "closed") →
      normalize_status v = py_lower (py_strip (v.getD ""))) ∧
    (¬ (py_lower (py_strip (v.getD "")) = "open" ∨
        py_lower (py_strip (v.getD "")) = "in_progress" ∨
        py_lower (py_strip (v.getD "")) = "closed") →
      normalize_status v = "open") ∧
    ((py_lower (py_strip (w.getD "")) = "high" ∨
        py_lower (py_strip (w.getD "")) = "medium" ∨
        py_lower (py_strip (w.getD "")) = "low") →
      normalize_priority w = py_lower (py_strip (w.getD ""))) ∧
    (¬ (py_lower (py_strip (w.getD "")) = "high" ∨
        py_lower (py_strip (w.getD "")) = "medium" ∨
        py_lower (py_strip (w.getD "")) = "low") →
      normalize_priority w = "medium") := by
  refine ⟨?_, ?_, ?_, ?_, ?_, ?_⟩
  · rw [normalize_status_eq]
    by_cases h : py_lower (py_strip (v.getD "")) = "open" ∨
        py_lower (py_strip (v.getD "")) = "in_progress" ∨
        py_lower (py_strip (v.getD "")) = "closed"
    · rw [if_pos h]
      exact h
    · rw [if_neg h]
      exact Or.inl rfl
  · rw [normalize_priority_eq]
    by_cases h : py_lower (py_strip (w.getD "")) = "high" ∨
        py_lower (py_strip (w.getD "")) = "medium" ∨
        py_lower (py_strip (w.getD "")) = "low"
    · rw [if_pos h]
      exact h
    · rw [if_neg h]
      exact Or.inr (Or.inl rfl)
  · intro h
    rw [normalize_status_eq, if_pos h]
  · intro h
    rw [normalize_status_eq, if_neg h]
  · intro h
    rw [normalize_priority_eq, if_pos h]
  · intro h
    rw [normalize_priority_eq, if_neg h]

/-- C6 witness: the padded mixed-case input ` Closed ` normalizes to
`closed`, and the unknown priority `URGENT` falls back to `medium`. -/
theorem normalize_enum_spec_witness :
    normalize_status (some " Closed ") = "closed" ∧
    normalize_priority (some "URGENT") = "medium" := by
  constructor
  · have h := (normalize_enum_spec (some " Closed ") (some "URGENT")).2.2.1
    have hv : py_lower (py_strip ((some " Closed ").getD "")) = "closed" := by
      decide
    rw [hv] at h
    exact h (Or.inr (Or.inr rfl))
  · have h := (normalize_enum_spec (some " Closed ") (some "URGENT")).2.2.2.2.2
    exact h (by decide)

/-! ## Theorems: origin and token authorization (C9) -/

/-- C9: `_is_local_origin` accepts an absent or empty `Origin` header,
and therefore with no configured token `_auth_ok` — the gate shared by
`do_GET` and `do_POST`, mutating endpoints included — authorizes every
request that omits the `Origin` header, whatever token header it
carries. -/
theorem auth_no_origin_spec :
    ∀ token_header : Option String,
      is_local_origin none = true ∧
      is_local_origin (some "") = true ∧
      auth_ok none none token_header = true ∧
      auth_ok none (some "") token_header = true := by
  intro token_header
  refine ⟨rfl, rfl, rfl, rfl⟩

/-! ## Theorems: list bookkeeping lemmas for the server state -/

lemma lookup_append_some {l1 l2 : List (Nat × JobStatus)} {j : Nat}
    {st : JobStatus} (h : lookupJob l1 j = some st) :
    lookupJob (l1 ++ l2) j = some st := by
  induction l1 with
  | nil => simp [lookupJob] at h
  | cons p rest ih =>
    by_cases hk : p.1 = j
    · simp [lookupJob, hk] at h ⊢
      exact h
    · simp [lookupJob, hk] at h ⊢
      exact ih h

lemma lookup_append_none {l1 l2 : List (Nat × JobStatus)} {j : Nat}
    (h : lookupJob l1 j = none) :
    lookupJob (l1 ++ l2) j = lookupJob l2 j := by
  induction l1 with
  | nil => simp [lookupJob]
  | cons p rest ih =>
    by_cases hk : p.1 = j
    · simp [lookupJob, hk] at h
    · simp [lookupJob, hk] at h ⊢
      exact ih h

lemma lookup_eq_none {l : List (Nat × JobStatus)} {j : Nat}
    (h : ∀ p ∈ l, p.1 ≠ j) : lookupJob l j = none := by
  induction l with
  | nil => simp [lookupJob]
  | cons p rest ih =>
    have hp : p.1 ≠ j := h p (by simp)
    simp [lookupJob, hp]
    exact ih (fun q hq => h q (by simp [hq]))

lemma lookup_mem {l : List (Nat × JobStatus)} {j : Nat} {st : JobStatus}
    (h : lookupJob l j = some st) : (j, st) ∈ l := by
  induction l with
  | nil => simp [lookupJob] at h
  | cons p rest ih =>
    by_cases hk : p.1 = j
    · simp [lookupJob, hk] at h
      have hp : (j, st) = p := by
        rw [← hk, ← h]
      rw [hp]
      exact List.mem_cons_self p rest
    · simp [lookupJob, hk] at h
      exact List.mem_cons_of_mem _ (ih h)

lemma setStatus_map_fst (l : List (Nat × JobStatus)) (j : Nat)
    (st : JobStatus) : (setStatus l j st).map Prod.fst = l.map Prod.fst := by
  induction l with
  | nil => rfl
  | cons p rest ih =>
    by_cases hk : p.1 = j
    · simp [setStatus, hk] at ih ⊢
      exact ih
    · simp [setStatus, hk] at ih ⊢
      exact ih

lemma lookup_setStatus_self (l : List (Nat × JobStatus)) (j : Nat)
    (st : JobStatus) :
    lookupJob (setStatus l j st) j = (lookupJob l j).map (fun _ => st) := by
  induction l with
  | nil => rfl
  | cons p rest ih =>
    by_cases hk : p.1 = j
    · simp [setStatus, lookupJob, hk]
    · simp [setStatus, lookupJob, hk]
      exact ih

lemma lookup_setStatus_ne (l : List (Nat × JobStatus)) {i j : Nat}
    (st : JobStatus) (h : i ≠ j) :
    lookupJob (setStatus l j st) i = lookupJob l i := by
  induction l with
  | nil => rfl
  | cons p rest ih =>
    simp only [setStatus, List.map_cons] at ih ⊢
    by_cases hpi : p.1 = i
    · have hpj : ¬ (p.1 = j) := by
        rw [hpi]
        exact h
      simp only [lookupJob]
      rw [if_neg hpj, if_pos hpi, if_pos hpi]
    · by_cases hpj : p.1 = j
      · simp only [lookupJob, if_pos hpj]
        rw [if_neg hpi, if_neg hpi]
        exact ih
      · simp only [lookupJob, if_neg hpj]
        rw [if_neg hpi, if_neg hpi]
        exact ih

lemma mem_setStatus {l : List (Nat × JobStatus)} {j : Nat} {st : JobStatus}
    {p : Nat × JobStatus} (h : p ∈ setStatus l j st) :
    (p.1 = j ∧ p.2 = st) ∨ (p ∈ l ∧ p.1 ≠ j) := by
  rcases List.mem_map.mp h with ⟨q, hq, hqe⟩
  by_cases hk : q.1 = j
  · left
    rw [← hqe]
    simp [hk]
  · right
    rw [← hqe]
    simp [hk]
    exact hq

lemma mem_workerIds {ws : List WorkerPhase} {j : Nat} :
    j ∈ workerIds ws ↔
      WorkerPhase.hold j ∈ ws ∨ WorkerPhase.exec j ∈ ws := by
  constructor
  · intro h
    rcases List.mem_filterMap.mp h with ⟨w, hw, hwe⟩
    cases w with
    | loop => simp at hwe
    | hold i =>
      simp at hwe
      subst hwe
      exact Or.inl hw
    | exec i =>
      simp at hwe
      subst hwe
      exact Or.inr hw
  · intro h
    cases h with
    | inl h => exact List.mem_filterMap.mpr ⟨WorkerPhase.hold j, h, rfl⟩
    | inr h => exact List.mem_filterMap.mpr ⟨WorkerPhase.exec j, h, rfl⟩

lemma append_error_length_le (log : List ErrorEntry) (e : ErrorEntry) :
    (append_error log e).length ≤ 200 ∨
      (append_error log e).length = log.length + 1 := by
  simp only [append_error]
  split
  · left
    simp only [List.length_drop]
    omega
  · right
    simp

lemma append_error_bound {log : List ErrorEntry} (e : ErrorEntry)
    (h : log.length ≤ 200) : (append_error log e).length ≤ 200 := by
  rcases append_error_length_le log e with hc | hc
  · exact hc
  · simp only [append_error] at hc ⊢
    rcases Nat.lt_or_ge 200 (log ++ [e]).length with hl | hl
    · rw [if_pos hl] at hc ⊢
      simp only [List.length_drop]
      omega
    · rw [if_neg (by omega)] at hc ⊢
      simp only [List.length_append] at hl ⊢
      omega

lemma single_worker (s : ServerState)
    (h1 : s.pending + s.workers.length = (if s.queue_running then 1 else 0))
    (w1 w2 : List WorkerPhase) (x : WorkerPhase)
    (hw : s.workers = w1 ++ x :: w2) :
    w1 = [] ∧ w2 = [] ∧ s.pending = 0 ∧ s.queue_running = true := by
  rw [hw] at h1
  simp only [List.length_append, List.length_cons] at h1
  by_cases hq : s.queue_running
  · rw [if_pos hq] at h1
    have hlen : w1.length = 0 ∧ w2.length = 0 ∧ s.pending = 0 := by omega
    exact ⟨List.length_eq_zero.mp hlen.1, List.length_eq_zero.mp hlen.2.1,
      hlen.2.2, hq⟩
  · rw [if_neg hq] at h1
    exfalso
    omega

/-! ## Theorems: invariant preservation, case by case -/

lemma inv_submit (s : ServerState) (h : Inv s) :
    Inv { s with
      jobs := s.jobs ++ [(s.nextId, JobStatus.queued)],
      job_order := s.job_order ++ [s.nextId],
      queue := s.queue ++ [s.nextId],
      queue_running := true,
      pending := if s.queue_running then s.pending else s.pending + 1,
      nextId := s.nextId + 1 } := by
  unfold Inv at h ⊢
  obtain ⟨h1, h2, h3, h4, h5, h6, h7, h8, h9, h10⟩ := h
  have fresh_key : ∀ p ∈ s.jobs, p.1 ≠ s.nextId :=
    fun p hp => Nat.ne_of_lt (h3 p hp)
  have hlook_none : lookupJob s.jobs s.nextId = none := lookup_eq_none fresh_key
  have hqueue_lt : ∀ j ∈ s.queue, j < s.nextId := by
    intro j hj
    exact h3 _ (lookup_mem (h5 j hj))
  have hworker_lt : ∀ j ∈ workerIds s.workers, j < s.nextId := by
    intro j hj
    rcases mem_workerIds.mp hj with hh | hh
    · exact h3 _ (lookup_mem (h6 j hh))
    · exact h3 _ (lookup_mem (h7 j hh))
  refine ⟨?_, ?_, ?_, ?_, ?_, ?_, ?_, ?_, ?_, ?_⟩
  · by_cases hq : s.queue_running
    · simp [hq] at h1 ⊢
      omega
    · simp [hq] at h1 ⊢
      obtain ⟨hp0, hw0⟩ := h1
      simp [hp0, hw0]
  · simp only [List.map_append, List.map_cons, List.map_nil]
    rw [List.nodup_append]
    refine ⟨h2, by simp, ?_⟩
    intro a ha hb
    simp only [List.mem_singleton] at hb
    rcases List.mem_map.mp ha with ⟨p, hp, hpa⟩
    exact fresh_key p hp (by rw [hpa, hb])
  · intro p hp
    rcases List.mem_append.mp hp with hp | hp
    · exact Nat.lt_trans (h3 p hp) (Nat.lt_succ_self _)
    · simp only [List.mem_singleton] at hp
      rw [hp]
      exact Nat.lt_succ_self _
  · intro p hp hrun
    rcases List.mem_append.mp hp with hp | hp
    · exact h4 p hp hrun
    · simp only [List.mem_singleton] at hp
      rw [hp] at hrun
      simp at hrun
  · intro j hj
    rcases List.mem_append.mp hj with hj | hj
    · exact lookup_append_some (h5 j hj)
    · simp only [List.mem_singleton] at hj
      rw [hj, lookup_append_none hlook_none]
      simp [lookupJob]
  · intro j hh
    exact lookup_append_some (h6 j hh)
  · intro j hh
    exact lookup_append_some (h7 j hh)
  · rw [List.nodup_append]
    refine ⟨h8, by simp, ?_⟩
    intro a ha hb
    simp only [List.mem_singleton] at hb
    exact Nat.ne_of_lt (hqueue_lt a ha) hb
  · intro j hj
    rw [List.mem_append]
    rintro (hq | hq)
    · exact h9 j hj hq
    · simp only [List.mem_singleton] at hq
      exact Nat.ne_of_lt (hworker_lt j hj) hq
  · exact h10

lemma workerIds_append (a b : List WorkerPhase) :
    workerIds (a ++ b) = workerIds a ++ workerIds b := by
  simp [workerIds, List.filterMap_append]

lemma inv_spawn (s : ServerState) (hpend1 : 0 < s.pending) (h : Inv s) :
    Inv { s with pending := s.pending - 1,
                 workers := s.workers ++ [WorkerPhase.loop] } := by
  unfold Inv at h ⊢
  obtain ⟨h1, h2, h3, h4, h5, h6, h7, h8, h9, h10⟩ := h
  refine ⟨?_, h2, h3, ?_, h5, ?_, ?_, h8, ?_, h10⟩
  · by_cases hq : s.queue_running
    · simp [hq] at h1 ⊢
      omega
    · simp [hq] at h1 ⊢
      obtain ⟨hp0, _⟩ := h1
      omega
  · intro p hp hrun
    exact List.mem_append_left _ (h4 p hp hrun)
  · intro j hh
    rcases List.mem_append.mp hh with hh | hh
    · exact h6 j hh
    · simp at hh
  · intro j hh
    rcases List.mem_append.mp hh with hh | hh
    · exact h7 j hh
    · simp at hh
  · intro j hj
    rw [workerIds_append] at hj
    rcases List.mem_append.mp hj with hj | hj
    · exact h9 j hj
    · simp [workerIds] at hj

lemma inv_worker_idle (s : ServerState) (w1 w2 : List WorkerPhase)
    (hw : s.workers = w1 ++ WorkerPhase.loop :: w2) (hq : s.queue = [])
    (h : Inv s) :
    Inv { s with queue_running := false, workers := w1 ++ w2 } := by
  unfold Inv at h ⊢
  obtain ⟨h1, h2, h3, h4, h5, h6, h7, h8, h9, h10⟩ := h
  obtain ⟨e1, e2, hpend, hqr⟩ := single_worker s h1 w1 w2 _ hw
  subst e1
  subst e2
  simp only [List.nil_append] at hw
  refine ⟨?_, h2, h3, ?_, h5, ?_, ?_, h8, ?_, h10⟩
  · simp [hpend]
  · intro p hp hrun
    have hx := h4 p hp hrun
    rw [hw] at hx
    simp at hx
  · intro j hh
    simp at hh
  · intro j hh
    simp at hh
  · intro j hj
    simp [workerIds] at hj

lemma inv_worker_pop (s : ServerState) (w1 w2 : List WorkerPhase) (j : Nat)
    (q2 : List Nat) (hw : s.workers = w1 ++ WorkerPhase.loop :: w2)
    (hq : s.queue = j :: q2) (hj : (lookupJob s.jobs j).isSome) (h : Inv s) :
    Inv { s with queue := q2,
                 workers := w1 ++ WorkerPhase.hold j :: w2 } := by
  unfold Inv at h ⊢
  obtain ⟨h1, h2, h3, h4, h5, h6, h7, h8, h9, h10⟩ := h
  obtain ⟨e1, e2, hpend, hqr⟩ := single_worker s h1 w1 w2 _ hw
  subst e1
  subst e2
  simp only [List.nil_append] at hw ⊢
  rw [hq] at h8
  refine ⟨?_, h2, h3, ?_, ?_, ?_, ?_, List.Nodup.of_cons h8, ?_, h10⟩
  · simp [hpend, hqr]
  · intro p hp hrun
    have hx := h4 p hp hrun
    rw [hw] at hx
    simp at hx
  · intro j2 hj2
    exact h5 j2 (by rw [hq]; exact List.mem_cons_of_mem _ hj2)
  · intro j2 hh
    simp at hh
    have hjj : j2 = j := by omega
    rw [hjj]
    exact h5 j (by rw [hq]; exact List.mem_cons_self _ _)
  · intro j2 hh
    simp at hh
  · intro j2 hj2
    simp [workerIds] at hj2
    subst hj2
    exact (List.nodup_cons.mp h8).1

lemma inv_worker_pop_missing (s : ServerState) (w1 w2 : List WorkerPhase)
    (j : Nat) (q2 : List Nat)
    (hw : s.workers = w1 ++ WorkerPhase.loop :: w2) (hq : s.queue = j :: q2)
    (hj : lookupJob s.jobs j = none) (h : Inv s) :
    Inv { s with queue := q2 } := by
  unfold Inv at h
  obtain ⟨h1, h2, h3, h4, h5, h6, h7, h8, h9, h10⟩ := h
  have hx := h5 j (by rw [hq]; exact List.mem_cons_self _ _)
  rw [hj] at hx
  simp at hx

lemma inv_worker_start (s : ServerState) (w1 w2 : List WorkerPhase) (j : Nat)
    (hw : s.workers = w1 ++ WorkerPhase.hold j :: w2) (h : Inv s) :
    Inv { s with workers := w1 ++ WorkerPhase.exec j :: w2,
                 jobs := setStatus s.jobs j JobStatus.running } := by
  unfold Inv at h ⊢
  obtain ⟨h1, h2, h3, h4, h5, h6, h7, h8, h9, h10⟩ := h
  obtain ⟨e1, e2, hpend, hqr⟩ := single_worker s h1 w1 w2 _ hw
  subst e1
  subst e2
  simp only [List.nil_append] at hw ⊢
  have hjq : lookupJob s.jobs j = some JobStatus.queued := by
    exact h6 j (by rw [hw]; exact List.mem_cons_self _ _)
  have hjkey : j < s.nextId := h3 _ (lookup_mem hjq)
  have hjnotq : j ∉ s.queue := by
    refine h9 j ?_
    rw [hw]
    simp [workerIds]
  refine ⟨?_, ?_, ?_, ?_, ?_, ?_, ?_, h8, ?_, h10⟩
  · simp [hpend, hqr]
  · rw [setStatus_map_fst]
    exact h2
  · intro p hp
    rcases mem_setStatus hp with ⟨hpj, _⟩ | ⟨hmem, _⟩
    · rw [hpj]
      exact hjkey
    · exact h3 p hmem
  · intro p hp hrun
    rcases mem_setStatus hp with ⟨hpj, _⟩ | ⟨hmem, hne⟩
    · rw [hpj]
      exact List.mem_cons_self _ _
    · have hx := h4 p hmem hrun
      rw [hw] at hx
      simp at hx
  · intro j2 hj2
    have hne : j2 ≠ j := fun he => hjnotq (he ▸ hj2)
    rw [lookup_setStatus_ne _ _ hne]
    exact h5 j2 hj2
  · intro j2 hh
    simp at hh
  · intro j2 hh
    simp at hh
    have hjj : j2 = j := by omega
    rw [hjj, lookup_setStatus_self, hjq]
    rfl
  · intro j2 hj2
    simp [workerIds] at hj2
    subst hj2
    exact hjnotq

lemma inv_worker_finish (s : ServerState) (w1 w2 : List WorkerPhase) (j : Nat)
    (rc : Int) (e : ErrorEntry)
    (hw : s.workers = w1 ++ WorkerPhase.exec j :: w2) (h : Inv s) :
    Inv { s with
      workers := w1 ++ WorkerPhase.loop :: w2,
      jobs := setStatus s.jobs j
        (if rc = 0 then JobStatus.done else JobStatus.error),
      error_log := if rc = 0 then s.error_log
        else append_error s.error_log e } := by
  unfold Inv at h ⊢
  obtain ⟨h1, h2, h3, h4, h5, h6, h7, h8, h9, h10⟩ := h
  obtain ⟨e1, e2, hpend, hqr⟩ := single_worker s h1 w1 w2 _ hw
  subst e1
  subst e2
  simp only [List.nil_append] at hw ⊢
  have hjr : lookupJob s.jobs j = some JobStatus.running := by
    exact h7 j (by rw [hw]; exact List.mem_cons_self _ _)
  have hjkey : j < s.nextId := h3 _ (lookup_mem hjr)
  have hjnotq : j ∉ s.queue := by
    refine h9 j ?_
    rw [hw]
    simp [workerIds]
  have hnr : (if rc = 0 then JobStatus.done else JobStatus.error) ≠
      JobStatus.running := by
    split <;> simp
  refine ⟨?_, ?_, ?_, ?_, ?_, ?_, ?_, h8, ?_, ?_⟩
  · simp [hpend, hqr]
  · rw [setStatus_map_fst]
    exact h2
  · intro p hp
    rcases mem_setStatus hp with ⟨hpj, _⟩ | ⟨hmem, _⟩
    · rw [hpj]
      exact hjkey
    · exact h3 p hmem
  · intro p hp hrun
    rcases mem_setStatus hp with ⟨_, hpst⟩ | ⟨hmem, hne⟩
    · rw [hpst] at hrun
      exact absurd hrun hnr
    · have hx := h4 p hmem hrun
      rw [hw] at hx
      simp at hx
      exact absurd hx hne
  · intro j2 hj2
    have hne : j2 ≠ j := fun he => hjnotq (he ▸ hj2)
    rw [lookup_setStatus_ne _ _ hne]
    exact h5 j2 hj2
  · intro j2 hh
    simp at hh
  · intro j2 hh
    simp at hh
  · intro j2 hj2
    simp [workerIds] at hj2
  · by_cases hrc : rc = 0
    · simp only [if_pos hrc]
      exact h10
    · simp only [if_neg hrc]
      exact append_error_bound e h10

lemma inv_clear (s : ServerState) (h : Inv s) :
    Inv { s with error_log := [] } := by
  unfold Inv at h ⊢
  obtain ⟨h1, h2, h3, h4, h5, h6, h7, h8, h9, _⟩ := h
  exact ⟨h1, h2, h3, h4, h5, h6, h7, h8, h9, by simp⟩

lemma inv_step {s t : ServerState} (h : Inv s) (hstep : Step s t) : Inv t := by
  cases hstep with
  | submit => exact inv_submit s h
  | spawnWorker hpend1 => exact inv_spawn s hpend1 h
  | workerIdle w1 w2 hw hq => exact inv_worker_idle s w1 w2 hw hq h
  | workerPop w1 w2 j q2 hw hq hj =>
    exact inv_worker_pop s w1 w2 j q2 hw hq hj h
  | workerPopMissing w1 w2 j q2 hw hq hj =>
    exact inv_worker_pop_missing s w1 w2 j q2 hw hq hj h
  | workerStart w1 w2 j hw => exact inv_worker_start s w1 w2 j hw h
  | workerFinish w1 w2 j rc e hw =>
    exact inv_worker_finish s w1 w2 j rc e hw h
  | clearErrors => exact inv_clear s h

lemma inv_init : Inv initState := by
  unfold Inv initState
  refine ⟨rfl, List.nodup_nil, ?_, ?_, ?_, ?_, ?_, List.nodup_nil, ?_, by simp⟩
  · intro p hp
    simp at hp
  · intro p hp
    simp at hp
  · intro j hj
    simp at hj
  · intro j hh
    simp at hh
  · intro j hh
    simp at hh
  · intro j hj
    simp [workerIds] at hj

lemma reachable_inv {s : ServerState} (h : Reachable s) : Inv s := by
  unfold Reachable at h
  induction h with
  | refl => exact inv_init
  | tail _ hbc ih => exact inv_step ih hbc

/-! ## Theorems: one worker, one running job (C3) -/

lemma filter_running_le_one (jobs : List (Nat × JobStatus))
    (hnodup : (jobs.map Prod.fst).Nodup)
    (huniq : ∀ p ∈ jobs, p.2 = JobStatus.running →
      ∀ q ∈ jobs, q.2 = JobStatus.running → p.1 = q.1) :
    (jobs.filter (fun p => p.2 == JobStatus.running)).length ≤ 1 := by
  cases hF : jobs.filter (fun p => p.2 == JobStatus.running) with
  | nil => simp
  | cons p F2 =>
    cases F2 with
    | nil => simp
    | cons q rest =>
      exfalso
      have hpF : p ∈ jobs.filter (fun p => p.2 == JobStatus.running) := by
        rw [hF]
        simp
      have hqF : q ∈ jobs.filter (fun p => p.2 == JobStatus.running) := by
        rw [hF]
        simp
      have hp_run : p.2 = JobStatus.running := by
        have := List.of_mem_filter hpF
        simpa using this
      have hq_run : q.2 = JobStatus.running := by
        have := List.of_mem_filter hqF
        simpa using this
      have heq : p.1 = q.1 :=
        huniq p (List.mem_of_mem_filter hpF) hp_run
          q (List.mem_of_mem_filter hqF) hq_run
      have hsub : (p :: q :: rest).Sublist jobs := by
        rw [← hF]
        exact List.filter_sublist jobs
      have hnod : ((p :: q :: rest).map Prod.fst).Nodup :=
        hnodup.sublist (hsub.map Prod.fst)
      simp only [List.map_cons, List.nodup_cons, List.mem_cons] at hnod
      exact hnod.1 (Or.inl heq)

/-- C3: in every reachable state of the server at most one worker
thread is alive, and at most one job is in status `running`: the
lock-plus-flag protocol lets only the submitter that flips the queue
from idle to active spawn a worker, and that single worker runs jobs
one at a time. -/
theorem no_two_running (s : ServerState) (h : Reachable s) :
    s.workers.length ≤ 1 ∧
    (s.jobs.filter (fun p => p.2 == JobStatus.running)).length ≤ 1 := by
  have hi := reachable_inv h
  unfold Inv at hi
  obtain ⟨h1, h2, _, h4, _, _, _, _, _, _⟩ := hi
  have hwlen : s.workers.length ≤ 1 := by
    by_cases hq : s.queue_running
    · rw [if_pos hq] at h1
      omega
    · rw [if_neg hq] at h1
      omega
  refine ⟨hwlen, ?_⟩
  refine filter_running_le_one s.jobs h2 ?_
  intro p hp hpr q hq hqr
  have hpw := h4 p hp hpr
  have hqw := h4 q hq hqr
  cases hws : s.workers with
  | nil =>
    rw [hws] at hpw
    simp at hpw
  | cons w ws =>
    cases ws with
    | nil =>
      rw [hws] at hpw hqw
      simp at hpw hqw
      have : WorkerPhase.exec p.1 = WorkerPhase.exec q.1 := by
        rw [hpw, hqw]
      simpa using this
    | cons w2 ws2 =>
      rw [hws] at hwlen
      simp at hwlen

/-! ## Demonstration run used by the state-machine witnesses -/

/-- State after one submission: job 0 queued, worker promised. -/
def demo_s1 : ServerState :=
  { jobs := [(0, JobStatus.queued)], job_order := [0], queue := [0],
    queue_running := true, pending := 1, workers := [], error_log := [],
    nextId := 1 }

/-- State after the worker thread has started. -/
def demo_s2 : ServerState :=
  { demo_s1 with pending := 0, workers := [WorkerPhase.loop] }

/-- State after the worker popped job 0. -/
def demo_s3 : ServerState :=
  { demo_s2 with queue := [], workers := [WorkerPhase.hold 0] }

/-- State while the worker is executing job 0. -/
def demo_s4 : ServerState :=
  { demo_s3 with workers := [WorkerPhase.exec 0],
                 jobs := [(0, JobStatus.running)] }

lemma step_init_s1 : Step initState demo_s1 := Step.submit initState

lemma step_s1_s2 : Step demo_s1 demo_s2 :=
  Step.spawnWorker demo_s1 (by decide)

lemma step_s2_s3 : Step demo_s2 demo_s3 :=
  Step.workerPop demo_s2 [] [] 0 [] rfl rfl (by decide)

lemma step_s3_s4 : Step demo_s3 demo_s4 :=
  Step.workerStart demo_s3 [] [] 0 rfl

lemma reachable_demo_s3 : Reachable demo_s3 :=
  Relation.ReflTransGen.tail
    (Relation.ReflTransGen.tail
      (Relation.ReflTransGen.tail Relation.ReflTransGen.refl step_init_s1)
      step_s1_s2)
    step_s2_s3

lemma reachable_demo_s4 : Reachable demo_s4 :=
  Relation.ReflTransGen.tail reachable_demo_s3 step_s3_s4

/-- C3 witness: the concrete run submit, spawn, pop, start reaches a
state with one executing worker and one running job. -/
theorem no_two_running_witness :
    demo_s4.workers.length ≤ 1 ∧
    (demo_s4.jobs.filter (fun p => p.2 == JobStatus.running)).length ≤ 1 :=
  no_two_running demo_s4 reachable_demo_s4

/-! ## Theorems: status monotonicity and fresh ids (C4) -/

/-- C4: along every transition out of a reachable state, each job's
status only moves forward along
`queued -> running -> (done | error)` — in particular a terminal status
is never changed again and a finished job is never re-executed — and
the id the next submission allocates is fresh: it is absent from the
job table. -/
theorem job_status_monotonic (s t : ServerState) (hr : Reachable s)
    (hs : Step s t) :
    (∀ j st st2, lookupJob s.jobs j = some st →
      lookupJob t.jobs j = some st2 →
      statusRank st ≤ statusRank st2 ∧
        ((st = JobStatus.done ∨ st = JobStatus.error) → st2 = st)) ∧
    lookupJob s.jobs s.nextId = none := by
  have hi := reachable_inv hr
  unfold Inv at hi
  obtain ⟨h1, h2, h3, h4, h5, h6, h7, h8, h9, h10⟩ := hi
  have hfresh : lookupJob s.jobs s.nextId = none :=
    lookup_eq_none (fun p hp => Nat.ne_of_lt (h3 p hp))
  refine ⟨?_, hfresh⟩
  intro j st st2 hst hst2
  cases hs with
  | submit =>
    have happ : lookupJob (s.jobs ++ [(s.nextId, JobStatus.queued)]) j =
        some st := lookup_append_some hst
    have heq : some st = some st2 := happ.symm.trans hst2
    have heq2 : st = st2 := Option.some.inj heq
    rw [← heq2]
    exact ⟨Nat.le_refl _, fun _ => rfl⟩
  | spawnWorker hpend1 =>
    have heq2 : st = st2 := Option.some.inj (hst.symm.trans hst2)
    rw [← heq2]
    exact ⟨Nat.le_refl _, fun _ => rfl⟩
  | workerIdle w1 w2 hw hq =>
    have heq2 : st = st2 := Option.some.inj (hst.symm.trans hst2)
    rw [← heq2]
    exact ⟨Nat.le_refl _, fun _ => rfl⟩
  | workerPop w1 w2 j0 q2 hw hq hj =>
    have heq2 : st = st2 := Option.some.inj (hst.symm.trans hst2)
    rw [← heq2]
    exact ⟨Nat.le_refl _, fun _ => rfl⟩
  | workerPopMissing w1 w2 j0 q2 hw hq hj =>
    have heq2 : st = st2 := Option.some.inj (hst.symm.trans hst2)
    rw [← heq2]
    exact ⟨Nat.le_refl _, fun _ => rfl⟩
  | workerStart w1 w2 j0 hw =>
    by_cases hjj : j = j0
    · have hheld : WorkerPhase.hold j0 ∈ s.workers := by
        rw [hw]
        exact List.mem_append_right _ (List.mem_cons_self _ _)
      have hjq : lookupJob s.jobs j0 = some JobStatus.queued := h6 j0 hheld
      rw [hjj] at hst
      have hstq : st = JobStatus.queued :=
        (Option.some.inj (hjq.symm.trans hst)).symm
      rw [hjj] at hst2
      rw [lookup_setStatus_self, hjq] at hst2
      have hst2r : st2 = JobStatus.running :=
        (Option.some.inj hst2).symm
      rw [hstq, hst2r]
      refine ⟨by simp [statusRank], ?_⟩
      intro hterm
      rcases hterm with hterm | hterm <;> simp at hterm
    · rw [lookup_setStatus_ne _ _ hjj] at hst2
      have heq2 : st = st2 := Option.some.inj (hst.symm.trans hst2)
      rw [← heq2]
      exact ⟨Nat.le_refl _, fun _ => rfl⟩
  | workerFinish w1 w2 j0 rc e hw =>
    by_cases hjj : j = j0
    · have hexecm : WorkerPhase.exec j0 ∈ s.workers := by
        rw [hw]
        exact List.mem_append_right _ (List.mem_cons_self _ _)
      have hjr : lookupJob s.jobs j0 = some JobStatus.running := h7 j0 hexecm
      rw [hjj] at hst
      have hstr : st = JobStatus.running :=
        (Option.some.inj (hjr.symm.trans hst)).symm
      rw [hjj] at hst2
      rw [lookup_setStatus_self, hjr] at hst2
      have hst2v : st2 = (if rc = 0 then JobStatus.done else JobStatus.error) :=
        (Option.some.inj hst2).symm
      rw [hstr, hst2v]
      refine ⟨?_, ?_⟩
      · by_cases hrc : rc = 0 <;> simp [hrc, statusRank]
      · intro hterm
        rcases hterm with hterm | hterm <;> simp at hterm
    · rw [lookup_setStatus_ne _ _ hjj] at hst2
      have heq2 : st = st2 := Option.some.inj (hst.symm.trans hst2)
      rw [← heq2]
      exact ⟨Nat.le_refl _, fun _ => rfl⟩
  | clearErrors =>
    have heq2 : st = st2 := Option.some.inj (hst.symm.trans hst2)
    rw [← heq2]
    exact ⟨Nat.le_refl _, fun _ => rfl⟩

/-- C4 witness: along the concrete start transition of the
demonstration run, job 0 moves from `queued` to `running`, a forward
move, and the fresh id 1 is absent from the job table. -/
theorem job_status_monotonic_witness :
    statusRank JobStatus.queued ≤ statusRank JobStatus.running ∧
    lookupJob demo_s3.jobs demo_s3.nextId = none := by
  have h := job_status_monotonic demo_s3 demo_s4 reachable_demo_s3 step_s3_s4
  refine ⟨?_, h.2⟩
  exact (h.1 0 JobStatus.queued JobStatus.running rfl rfl).1

/-! ## Theorems: bounded error log (C7) -/

/-- C7: the rolling error log never exceeds 200 entries in any
reachable state: the only mutations are the append-then-trim in
`_run_job` (modelled by `append_error` inside the `workerFinish`
transition) and the clear endpoint, and both preserve the bound. -/
theorem error_log_bounded (s : ServerState) (h : Reachable s) :
    s.error_log.length ≤ 200 := by
  have hi := reachable_inv h
  unfold Inv at hi
  exact hi.2.2.2.2.2.2.2.2.2

/-- C7 witness: the bound holds in the concrete demonstration state
reached by submit, spawn, pop, start. -/
theorem error_log_bounded_witness : demo_s4.error_log.length ≤ 200 :=
  error_log_bounded demo_s4 reachable_demo_s4

/-! ## Theorems: locating the AI_first directory and failing fast (C8) -/

/-- C8: `run_reintegration` locates the target directory either as the
source path itself (a directory named `AI_first`) or as its immediate
child; when neither matches it fails with the not-found error before
performing any filesystem effect (no scratch copy, no report); and an
untracked source repo is only recorded as a warning in an otherwise
successful summary. -/
theorem run_reintegration_locate_spec (fs : FileSys)
    (source_path cur scratch : List String)
    (rp mp : Option (List String)) (slug : String) :
    ((fs.is_dir source_path = true ∧
        source_path.getLast? = some "AI_first") →
      find_ai_first_dir fs source_path =
        Except.ok (source_path.dropLast, source_path)) ∧
    (¬ (fs.is_dir source_path = true ∧
        source_path.getLast? = some "AI_first") →
      fs.is_dir (source_path ++ ["AI_first"]) = true →
      find_ai_first_dir fs source_path =
        Except.ok (source_path, source_path ++ ["AI_first"])) ∧
    (¬ (fs.is_dir source_path = true ∧
        source_path.getLast? = some "AI_first") →
      fs.is_dir (source_path ++ ["AI_first"]) = false →
      run_reintegration fs source_path cur scratch rp mp slug =
        (Except.error "No AI_first directory found in source path", [])) ∧
    (∀ root dir, find_ai_first_dir fs source_path = Except.ok (root, dir) →
      fs.git_tracked = none →
      ∃ summ, (run_reintegration fs source_path cur scratch rp mp slug).1 =
          Except.ok summ ∧
        summ.warnings =
          ["Source repo is not a git repository; .gitignore rules not applied."] ∧
        summ.copy_mode = "full") := by
  refine ⟨?_, ?_, ?_, ?_⟩
  · intro hdir
    unfold find_ai_first_dir
    rw [if_pos (by simp [hdir.1, hdir.2])]
  · intro hnot hchild
    unfold find_ai_first_dir
    rw [if_neg ?side, if_pos hchild]
    case side =>
      intro hcon
      simp only [Bool.and_eq_true, beq_iff_eq] at hcon
      exact hnot ⟨hcon.1, hcon.2⟩
  · intro hnot hchild
    have hfind : find_ai_first_dir fs source_path =
        Except.error "No AI_first directory found in source path" := by
      unfold find_ai_first_dir
      rw [if_neg ?side, if_neg (by simp [hchild])]
      case side =>
        intro hcon
        simp only [Bool.and_eq_true, beq_iff_eq] at hcon
        exact hnot ⟨hcon.1, hcon.2⟩
    unfold run_reintegration
    rw [hfind]
  · intro root dir hfind htracked
    unfold run_reintegration
    rw [hfind]
    refine ⟨_, rfl, ?_, ?_⟩
    · simp [htracked]
    · simp [htracked]

/-- A concrete world for the C8 witness: only `repo/AI_first` exists as
a directory, and the repo is not a git checkout. -/
def demo_fs : FileSys :=
  { is_dir := fun p => p == ["repo", "AI_first"],
    git_tracked := none,
    tree_manifest := fun _ => [] }

/-- C8 witness: on the concrete world, the child lookup succeeds with
an untracked warning in the summary, and a path with no `AI_first`
child fails with the not-found error and an empty effect list. -/
theorem run_reintegration_locate_spec_witness :
    find_ai_first_dir demo_fs ["repo"] =
      Except.ok (["repo"], ["repo", "AI_first"]) ∧
    run_reintegration demo_fs ["elsewhere"] ["cur"] ["scratch"] none none "t" =
      (Except.error "No AI_first directory found in source path", []) ∧
    (∃ summ,
      (run_reintegration demo_fs ["repo"] ["cur"] ["scratch"] none none
          "t").1 = Except.ok summ ∧
      summ.warnings =
        ["Source repo is not a git repository; .gitignore rules not applied."] ∧
      summ.copy_mode = "full") := by
  have h1 := run_reintegration_locate_spec demo_fs ["repo"] ["cur"] ["scratch"]
    none none "t"
  have h2 := run_reintegration_locate_spec demo_fs ["elsewhere"] ["cur"]
    ["scratch"] none none "t"
  refine ⟨?_, ?_, ?_⟩
  · exact h1.2.1 (by decide) (by decide)
  · exact h2.2.2.1 (by decide) (by decide)
  · refine h1.2.2.2 ["repo"] ["repo", "AI_first"] ?_ rfl
    exact h1.2.1 (by decide) (by decide)

/-! ## Theorems: quick-issues create with a blank title (C10) -/

/-- Payload naming the create action but carrying no title. -/
def blank_payload : QuickPayload :=
  { action := some "create", id := none, title := none, status := none,
    priority := none, owner := none, tags := none, notes := none }

/-- C10 counterexample: when the stored quick-issues file is missing,
the blank-title create request still answers 400, but the handler does
write the store — `_read_json` writes the default document before the
validation runs — so the claim that the stored document is not written
fails at this input. -/
theorem quick_issues_blank_title_counterexample :
    (quick_issues_post StoredJson.missing blank_payload "2026-10-12"
        "2026-10-12T00:00:00").code = 400 ∧
    (quick_issues_post StoredJson.missing blank_payload "2026-10-12"
        "2026-10-12T00:00:00").writes ≠ [] := by
  decide

/-- C10 (amended): a create request with a missing, empty or
whitespace-only title answers 400 and the update path performs no
write: the resulting store and write list are exactly those of the
`_read_json` step.  In particular, when the stored document exists and
parses, nothing is written and the issues list is untouched; a missing
or unreadable store is reinitialized to the default document by the
read step independently of the request outcome. -/
theorem quick_issues_blank_title_spec (st : StoredJson)
    (payload : QuickPayload) (now_date now_stamp : String)
    (ha : resolve_action payload = "create")
    (ht : py_strip (payload.title.getD "") = "") :
    quick_issues_post st payload now_date now_stamp =
      { code := 400,
        store := (read_json_quick st (default_quick_issues now_date)).2.2,
        writes := (read_json_quick st (default_quick_issues now_date)).2.1 } ∧
    (∀ d, st = StoredJson.present d →
      (quick_issues_post st payload now_date now_stamp).writes = [] ∧
      (quick_issues_post st payload now_date now_stamp).store = st) := by
  have hmain : quick_issues_post st payload now_date now_stamp =
      { code := 400,
        store := (read_json_quick st (default_quick_issues now_date)).2.2,
        writes := (read_json_quick st (default_quick_issues now_date)).2.1 } := by
    simp only [quick_issues_post, ha, ht]
    simp
  refine ⟨hmain, ?_⟩
  intro d hd
  subst hd
  rw [hmain]
  exact ⟨rfl, rfl⟩

/-- A parsable stored document for the C10 witness. -/
def present_doc : QuickDoc := { updated_at := "2026-01-01", issues := [] }

/-- Payload with no action key, no id, and a whitespace-only title; it
resolves to create. -/
def blank_payload2 : QuickPayload :=
  { action := none, id := none, title := some "   ", status := none,
    priority := none, owner := none, tags := none, notes := none }

/-- C10 witness: with a present parsable store, the whitespace-title
create request answers 400, writes nothing, and leaves the store
untouched. -/
theorem quick_issues_blank_title_spec_witness :
    quick_issues_post (StoredJson.present present_doc) blank_payload2
        "2026-10-12" "2026-10-12T00:00:00" =
      { code := 400, store := StoredJson.present present_doc,
        writes := [] } := by
  have h := quick_issues_blank_title_spec (StoredJson.present present_doc)
    blank_payload2 "2026-10-12" "2026-10-12T00:00:00" (by decide) (by decide)
  rw [h.1]
  rfl

/-! ## Theorems: decimal numeral lemmas for the issue id (C5) -/

lemma digit_char_toNat (d : Nat) (h : d < 10) :
    (digit_char d).toNat = 48 + d := by
  interval_cases d <;> decide

lemma digit_char_isDigit (d : Nat) (h : d < 10) :
    (digit_char d).isDigit = true := by
  interval_cases d <;> decide

lemma digit_char_ne_dash (d : Nat) (h : d < 10) : digit_char d ≠ '-' := by
  interval_cases d <;> decide

lemma digits_go_all : ∀ (f : Nat), ∀ (n : Nat), ∀ c ∈ digits_go f n,
    c.isDigit = true ∧ c ≠ '-' := by
  intro f
  induction f with
  | zero =>
    intro n c hc
    simp [digits_go] at hc
  | succ f ih =>
    intro n c hc
    simp only [digits_go] at hc
    by_cases hn : n = 0
    · rw [if_pos hn] at hc
      simp at hc
    · rw [if_neg hn] at hc
      rcases List.mem_append.mp hc with hc | hc
      · exact ih _ c hc
      · simp only [List.mem_singleton] at hc
        subst hc
        have hm : n % 10 < 10 := Nat.mod_lt _ (by omega)
        exact ⟨digit_char_isDigit _ hm, digit_char_ne_dash _ hm⟩

lemma parse_foldl : ∀ (f n a : Nat), n ≤ f →
    (digits_go f n).foldl (fun acc c => acc * 10 + (c.toNat - 48)) a =
      a * 10 ^ (digits_go f n).length + n := by
  intro f
  induction f with
  | zero =>
    intro n a hnf
    have hn : n = 0 := by omega
    subst hn
    simp [digits_go]
  | succ f ih =>
    intro n a hnf
    by_cases hn : n = 0
    · subst hn
      simp [digits_go]
    · have hdivlt : n / 10 < n := Nat.div_lt_self (by omega) (by omega)
      have hrec : n / 10 ≤ f := by omega
      simp only [digits_go, if_neg hn]
      rw [List.foldl_append]
      simp only [List.foldl_cons, List.foldl_nil]
      rw [ih (n / 10) a hrec]
      have hm : n % 10 < 10 := Nat.mod_lt _ (by omega)
      rw [digit_char_toNat _ hm]
      simp only [List.length_append, List.length_cons, List.length_nil]
      have h48 : 48 + n % 10 - 48 = n % 10 := by omega
      rw [h48, pow_succ]
      have hkey : (a * 10 ^ (digits_go f (n / 10)).length + n / 10) * 10 +
          n % 10 =
          a * (10 ^ (digits_go f (n / 10)).length * 10) +
            (n / 10 * 10 + n % 10) := by
        ring
      rw [hkey]
      congr 1
      omega

lemma digits_go_length_le : ∀ (f n k : Nat), n < 10 ^ k →
    (digits_go f n).length ≤ k := by
  intro f
  induction f with
  | zero =>
    intro n k _
    simp [digits_go]
  | succ f ih =>
    intro n k hk
    by_cases hn : n = 0
    · simp [digits_go, hn]
    · simp only [digits_go, if_neg hn, List.length_append, List.length_cons,
        List.length_nil]
      have hk1 : 1 ≤ k := by
        by_contra hcon
        have hk0 : k = 0 := by omega
        subst hk0
        simp at hk
        omega
      have hpow : 10 ^ k = 10 ^ (k - 1) * 10 := by
        conv_lhs => rw [show k = (k - 1) + 1 by omega]
        rw [pow_succ]
      have hdiv : n / 10 < 10 ^ (k - 1) := by
        refine Nat.div_lt_of_lt_mul ?_
        omega
      have := ih (n / 10) (k - 1) hdiv
      omega

lemma digits_go_ne_nil (f n : Nat) (h1 : 1 ≤ n) (h2 : n ≤ f) :
    digits_go f n ≠ [] := by
  cases f with
  | zero => omega
  | succ f =>
    simp only [digits_go, if_neg (by omega : ¬ n = 0)]
    simp

lemma takeWhile_append_all (p : Char → Bool) :
    ∀ (l1 l2 : List Char), (∀ a ∈ l1, p a = true) →
      (l1 ++ l2).takeWhile p = l1 ++ l2.takeWhile p := by
  intro l1
  induction l1 with
  | nil =>
    intro l2 _
    simp
  | cons x xs ih =>
    intro l2 hall
    have hx : p x = true := hall x (by simp)
    simp only [List.cons_append, List.takeWhile_cons, hx, if_true]
    rw [ih l2 (fun a ha => hall a (by simp [ha]))]

lemma tail_after_dash_append (xs ds : List Char)
    (hds : ∀ c ∈ ds, c ≠ '-') :
    tail_after_dash ((xs ++ ['-']) ++ ds) = ds := by
  unfold tail_after_dash
  rw [List.reverse_append, List.reverse_append]
  have hall : ∀ a ∈ ds.reverse, (a != '-') = true := by
    intro a ha
    have := hds a (List.mem_reverse.mp ha)
    simp [this]
  rw [takeWhile_append_all _ _ _ hall]
  simp [List.takeWhile]

lemma isPrefixOf_append_self : ∀ (p t : List Char),
    p.isPrefixOf (p ++ t) = true := by
  intro p t
  induction p with
  | nil => simp [List.isPrefixOf]
  | cons x xs ih => simp [List.isPrefixOf, ih]

lemma parse_replicate_zero : ∀ (k : Nat),
    (List.replicate k '0').foldl (fun acc c => acc * 10 + (c.toNat - 48)) 0 =
      0 := by
  intro k
  induction k with
  | zero => rfl
  | succ k ih =>
    simp only [List.replicate_succ, List.foldl_cons]
    simpa using ih

lemma char_digits_to_nat_pad (k n : Nat) :
    char_digits_to_nat (List.replicate k '0' ++ nat_digits n) = n := by
  unfold char_digits_to_nat
  rw [List.foldl_append, parse_replicate_zero]
  have := parse_foldl n n 0 (Nat.le_refl n)
  simpa [nat_digits] using this

lemma pad3_data (n : Nat) :
    (pad3 n).data =
      List.replicate (3 - (nat_digits n).length) '0' ++ nat_digits n := rfl

lemma pad3_all_digit (n : Nat) :
    ∀ c ∈ (pad3 n).data, c.isDigit = true ∧ c ≠ '-' := by
  intro c hc
  rw [pad3_data] at hc
  rcases List.mem_append.mp hc with hc | hc
  · have hc0 : c = '0' := List.eq_of_mem_replicate hc
    subst hc0
    exact ⟨by decide, by decide⟩
  · exact digits_go_all n n c hc

lemma pad3_ne_nil (n : Nat) (h : 1 ≤ n) : (pad3 n).data ≠ [] := by
  rw [pad3_data]
  intro hcon
  rcases List.append_eq_nil.mp hcon with ⟨_, h2⟩
  exact digits_go_ne_nil n n h (Nat.le_refl n) h2

lemma nat_digits_length_le (n k : Nat) (h : n < 10 ^ k) :
    (nat_digits n).length ≤ k := digits_go_length_le n n k h

lemma month_pfx_data (d : String) :
    (month_pfx d).data =
      ("QI-".data ++ d.data.take 4 ++ '-' :: (d.data.drop 5).take 2) ++
        ['-'] := rfl

lemma tail_num_generated (d : String) (v : Nat) (hv : 1 ≤ v) :
    tail_num (month_pfx d)
      (String.mk ((month_pfx d).data ++ (pad3 v).data)) = some v := by
  have hdig := pad3_all_digit v
  have hne := pad3_ne_nil v hv
  have htail : tail_after_dash
      (String.mk ((month_pfx d).data ++ (pad3 v).data)).data = (pad3 v).data := by
    show tail_after_dash ((month_pfx d).data ++ (pad3 v).data) = (pad3 v).data
    rw [month_pfx_data]
    exact tail_after_dash_append _ _ (fun c hc => (hdig c hc).2)
  have hpre : (month_pfx d).data.isPrefixOf
      ((month_pfx d).data ++ (pad3 v).data) = true :=
    isPrefixOf_append_self _ _
  have hall : (pad3 v).data.all Char.isDigit = true :=
    List.all_eq_true.mpr (fun c hc => (hdig c hc).1)
  simp only [tail_num]
  rw [if_pos hpre, htail, if_pos ⟨hne, hall⟩]
  exact congrArg some (char_digits_to_nat_pad _ v)

lemma seq_numbers_append (issues : List Issue) (d : String) (i2 : Issue)
    (v : Nat)
    (hid : i2.id = some (String.mk ((month_pfx d).data ++ (pad3 v).data)))
    (hv : 1 ≤ v) :
    seq_numbers (issues ++ [i2]) d = seq_numbers issues d ++ [v] := by
  unfold seq_numbers
  rw [List.filterMap_append]
  congr 1
  simp [hid, tail_num_generated d v hv]

lemma foldr_max_le (L : List Nat) : ∀ n ∈ L, n ≤ L.foldr max 0 := by
  induction L with
  | nil =>
    intro n hn
    simp at hn
  | cons x xs ih =>
    intro n hn
    simp only [List.foldr_cons]
    rcases List.mem_cons.mp hn with hn | hn
    · rw [hn]
      exact Nat.le_max_left _ _
    · exact Nat.le_trans (ih n hn) (Nat.le_max_right _ _)

lemma foldr_max_acc (L : List Nat) : ∀ a : Nat,
    L.foldr max a = max a (L.foldr max 0) := by
  induction L with
  | nil =>
    intro a
    simp
  | cons x xs ih =>
    intro a
    simp only [List.foldr_cons]
    rw [ih a]
    rw [← Nat.max_assoc, Nat.max_comm x a, Nat.max_assoc]

lemma foldr_max_append (L : List Nat) (v : Nat) :
    (L ++ [v]).foldr max 0 = max (L.foldr max 0) v := by
  rw [List.foldr_append]
  simp only [List.foldr_cons, List.foldr_nil]
  rw [foldr_max_acc, Nat.max_zero, Nat.max_comm]

/-- C5 (amended): `_next_issue_id` returns the month stem followed by
`%03d` of one plus the maximum sequence number among issues sharing the
stem (one when none exists).  The suffix value is strictly greater than
every existing sequence number, the formatted suffix has exactly three
digits whenever the value is at most 999 (it grows beyond three digits
above that), the generated id parses back to its value, and creating
three issues in a row yields the strictly increasing consecutive values
`v`, `v + 1`, `v + 2`. -/
theorem next_issue_id_spec (issues : List Issue) (now_date : String) :
    ∃ v : Nat,
      v = (seq_numbers issues now_date).foldr max 0 + 1 ∧
      next_issue_id issues now_date =
        String.mk ((month_pfx now_date).data ++ (pad3 v).data) ∧
      (seq_numbers issues now_date = [] → v = 1) ∧
      (∀ n ∈ seq_numbers issues now_date, n < v) ∧
      (v ≤ 999 → (pad3 v).data.length = 3) ∧
      tail_num (month_pfx now_date) (next_issue_id issues now_date) =
        some v ∧
      (∀ i2 : Issue, i2.id = some (next_issue_id issues now_date) →
        next_issue_id (issues ++ [i2]) now_date =
          String.mk ((month_pfx now_date).data ++ (pad3 (v + 1)).data)) ∧
      (∀ i2 i3 : Issue, i2.id = some (next_issue_id issues now_date) →
        i3.id = some (next_issue_id (issues ++ [i2]) now_date) →
        next_issue_id (issues ++ [i2, i3]) now_date =
          String.mk ((month_pfx now_date).data ++ (pad3 (v + 2)).data)) := by
  set M := (seq_numbers issues now_date).foldr max 0 with hM
  have hnext2 : ∀ i2 : Issue,
      i2.id = some (next_issue_id issues now_date) →
      next_issue_id (issues ++ [i2]) now_date =
        String.mk ((month_pfx now_date).data ++ (pad3 (M + 1 + 1)).data) ∧
      (seq_numbers (issues ++ [i2]) now_date).foldr max 0 = M + 1 := by
    intro i2 hid
    have hid2 : i2.id =
        some (String.mk ((month_pfx now_date).data ++ (pad3 (M + 1)).data)) :=
      hid
    have hs := seq_numbers_append issues now_date i2 (M + 1) hid2 (by omega)
    have hf2 : (seq_numbers (issues ++ [i2]) now_date).foldr max 0 = M + 1 := by
      rw [hs, foldr_max_append, ← hM]
      omega
    refine ⟨?_, hf2⟩
    simp only [next_issue_id]
    rw [hf2]
  refine ⟨M + 1, rfl, rfl, ?_, ?_, ?_, ?_, ?_, ?_⟩
  · intro h
    rw [hM, h]
    rfl
  · intro n hn
    have := foldr_max_le _ n hn
    rw [← hM] at this
    omega
  · intro hv
    have h1000 : (10 : Nat) ^ 3 = 1000 := by norm_num
    have hlt : M + 1 < 10 ^ 3 := by omega
    have hlen := nat_digits_length_le (M + 1) 3 hlt
    rw [pad3_data]
    simp only [List.length_append, List.length_replicate]
    omega
  · exact tail_num_generated now_date (M + 1) (by omega)
  · intro i2 hid
    exact (hnext2 i2 hid).1
  · intro i2 i3 hid2 hid3
    obtain ⟨hn2, hf2⟩ := hnext2 i2 hid2
    have hid3b : i3.id = some
        (String.mk ((month_pfx now_date).data ++ (pad3 (M + 1 + 1)).data)) := by
      rw [hid3, hn2]
    have hs3 := seq_numbers_append (issues ++ [i2]) now_date i3 (M + 1 + 1)
      hid3b (by omega)
    have hassoc : issues ++ [i2, i3] = (issues ++ [i2]) ++ [i3] := by
      simp
    rw [hassoc]
    simp only [next_issue_id]
    rw [hs3, foldr_max_append, hf2]
    have hmx : max (M + 1) (M + 1 + 1) = M + 2 := by omega
    rw [hmx]

/-- Existing issue carrying the highest three-digit sequence number of
the month. -/
def issue999 : Issue :=
  { id := some "QI-2026-10-999", title := "t", status := "open",
    priority := "medium", owner := "unassigned", tags := [], notes := "",
    created_at := "c", updated_at := "u" }

/-- C5 counterexample: with an existing issue `QI-2026-10-999`, the
allocated id is `QI-2026-10-1000`: its value is still one plus the
maximum, but the suffix after the last dash has four characters, so the
claimed zero-padded three-digit shape fails at this input. -/
theorem next_issue_id_counterexample :
    next_issue_id [issue999] "2026-10-12" = "QI-2026-10-1000" ∧
    (tail_after_dash (next_issue_id [issue999] "2026-10-12").data).length =
      4 := by
  decide

/-- Issue holding the first generated id of the month. -/
def demo_issue : Issue :=
  { id := some "QI-2026-10-001", title := "", status := "open",
    priority := "medium", owner := "unassigned", tags := [], notes := "",
    created_at := "", updated_at := "" }

/-- C5 witness: on an empty issue list the allocated id is
`QI-2026-10-001`, and creating it and allocating again yields
`QI-2026-10-002`. -/
theorem next_issue_id_spec_witness :
    next_issue_id [] "2026-10-12" = "QI-2026-10-001" ∧
    next_issue_id [demo_issue] "2026-10-12" = "QI-2026-10-002" := by
  obtain ⟨v, hv, heq, _, _, _, _, hsucc, _⟩ :=
    next_issue_id_spec [] "2026-10-12"
  have hv1 : v = 1 := by
    rw [hv]
    rfl
  subst hv1
  have h1 : next_issue_id [] "2026-10-12" = "QI-2026-10-001" := by
    rw [heq]
    decide
  refine ⟨h1, ?_⟩
  have h2 := hsucc demo_issue (by rw [h1]; decide)
  have hl : ([] : List Issue) ++ [demo_issue] = [demo_issue] := rfl
  rw [hl] at h2
  rw [h2]
  decide

end AIFirst
